import Mathlib

/-!
Shallow embedding of src/multilevel-atom.cpp (multilevel atomic media for
the meep FDTD solver) and proofs about its update routines.

Modelling conventions:
* machine floating-point values (realnum / double) are modelled as
  rationals, so every algebraic identity below is exact arithmetic on the
  expressions the source computes;
* the double constant pi is carried as an abstract rational parameter
  named ppi;
* flat C arrays are total functions from their (integer or natural)
  index, with the same index arithmetic as the source (for example
  alpha (l * T + t) for alpha[l * T + t]);
* the FOR_COMPONENTS / DOCMP2 iteration over stored field components is
  modelled by an explicit list of the iterated entries, in iteration
  order;
* a call to meep::abort is modelled by the value none of an Option type.
-/

namespace Meep

/-! ### Offset selection for the population-update stencil

`multilevel_susceptibility::update_P` (lines 244-254) fills, for each
component c with a stored polarization table, the offset slots
o1[idot], o2[idot] with gv.yee2cent_offsets(c, ...) and then increments
idot.  `comps` lists those yee2cent offset pairs in FOR_COMPONENTS
order; `o0` is the initial (uninitialised) content of the three slots. -/

def yee2cent_assign : List (ℤ × ℤ) → ℕ → (ℕ → ℤ × ℤ) → (ℕ → ℤ × ℤ)
  | [], _, o => o
  | c :: rest, idot, o =>
      yee2cent_assign rest (idot + 1) (fun j => if j = idot then c else o j)

def pick_offsets_linear (comps : List (ℤ × ℤ)) (o0 : ℕ → ℤ × ℤ) : ℕ → ℤ × ℤ :=
  yee2cent_assign comps 0 o0

/-- Source function multilevel_nonlinear_susceptibility::pick_field_offsets
(lines 857-870): the loop body runs
gv.yee2cent_offsets(c, o.o1[idot], o.o2[idot]) for every component with
a stored polarization table but never increments idot, so every write
lands in slot 0. -/
def pick_field_offsets (comps : List (ℤ × ℤ)) (o0 : ℕ → ℤ × ℤ) : ℕ → ℤ × ℤ :=
  comps.foldl (fun o c => fun j => if j = 0 then c else o j) o0

/-- Claim C1.  The claim requires both update_P variants to evaluate the
population-driving terms on the 8-point stencil built from each stored
component's own yee2cent offsets.  The linear variant assigns slot idot
of the offset table to the idot-th stored component, but the extended
variant's pick_field_offsets never increments idot: with two stored
components whose yee2cent offset pairs are (1,2) and (3,4), slot 0 ends
up holding the second component's offsets and slot 1 keeps its initial
(uninitialised) content, so the stencil the claim describes is not the
one the extended variant evaluates. -/
theorem pick_field_offsets_idot_bug :
    pick_field_offsets [((1 : ℤ), (2 : ℤ)), (3, 4)] (fun _ => (0, 0)) 0 = (3, 4) ∧
    pick_offsets_linear [((1 : ℤ), (2 : ℤ)), (3, 4)] (fun _ => (0, 0)) 0 = (1, 2) ∧
    pick_field_offsets [((1 : ℤ), (2 : ℤ)), (3, 4)] (fun _ => (0, 0)) 1 = (0, 0) ∧
    pick_offsets_linear [((1 : ℤ), (2 : ℤ)), (3, 4)] (fun _ => (0, 0)) 1 = (3, 4) := by
  exact ⟨rfl, rfl, rfl, rfl⟩

/-! ### Buffer sizing and slicing (new_internal_data / init_internal_data)

`needs` lists, in FOR_COMPONENTS/DOCMP2 order, whether each
(component, cmp) pair needs a polarization table (needs_P).  All sizes
are counted in realnum elements of the flexible data[] block; the
sizeof(...) header of the C struct is common to allocation and use and
is left out (the extended variant additionally undersizes that header by
allocating sizeof(multilevel_data) for a multilevel_extended_data, which
only worsens the shortfall proved below). -/

def needs_count (step : ℕ) (needs : List Bool) : ℕ :=
  needs.foldl (fun n b => if b then n + step else n) 0

/-- Source function multilevel_susceptibility::new_internal_data (lines 130-141):
num = sum of 2*ntot over needed pairs, element count
L*L + L + ntot*L + num*T. -/
def linear_alloc_elems (L T ntot : ℕ) (needs : List Bool) : ℕ :=
  L * L + L + ntot * L + needs_count (2 * ntot) needs * T

/-- End of the region sliced by
`multilevel_susceptibility::init_internal_data` (lines 157-184): the P
walk starts at L*L and advances 2*ntot per transition per needed pair,
then Ntmp takes L elements and N takes ntot*L. -/
def linear_slice_end (L T ntot : ℕ) (needs : List Bool) : ℕ :=
  L * L + needs_count (2 * ntot * T) needs + L + ntot * L

/-- Source function multilevel_nonlinear_susceptibility::new_internal_data
(lines 421-444): G_size = L*L, N_size = (ntot+1)*L,
P_size = 2*npol*T with npol the sum of ntot over needed pairs,
V_size = 2*ntot*C. -/
def extended_alloc_elems (L T C ntot : ℕ) (needs : List Bool) : ℕ :=
  L * L + (ntot + 1) * L + 2 * needs_count ntot needs * T + 2 * ntot * C

/-- End of the region sliced by
`multilevel_nonlinear_susceptibility::init_internal_data`
(lines 461-508): after GammaInv, the P walk and the (ntot+1)*L
population block, the V walk advances 2*ntot for each crossection and
each of the two complex parts (DOCMP2), i.e. 2*(C*(2*ntot)) elements. -/
def extended_slice_end (L T C ntot : ℕ) (needs : List Bool) : ℕ :=
  L * L + needs_count (2 * ntot * T) needs + L * (ntot + 1) + 2 * (C * (2 * ntot))

/-- Claim C3.  The linear variant's allocation exactly covers the region
its init slices (shown here at L=2, T=1, ntot=4 with one needed pair),
but the extended variant allocates 2*ntot*C coherence elements while its
init slices 4*ntot*C of them: already at L=1, T=0, C=1, ntot=1 with no
needed polarization pair the sliced region (7 elements) overruns the
allocated one (5 elements), so the V sub-arrays for the second complex
part do not lie within the allocated region. -/
theorem new_internal_data_extended_overflow :
    linear_alloc_elems 2 1 4 [true, false] = linear_slice_end 2 1 4 [true, false] ∧
    extended_alloc_elems 1 0 1 1 [] < extended_slice_end 1 0 1 1 [] := by
  exact ⟨rfl, by decide⟩

/-! ### Locating the levels coupled by a transition

Radiative transitions (both variants, lines 333-339 and 769-775): for
each level l, a positive alpha[l*T+t] records lp = l and a negative one
records lm = l; the sentinel -1 marks a missing entry and triggers
meep::abort. -/

def transition_levels (L T : ℕ) (alpha : ℕ → ℚ) (t : ℕ) : ℤ × ℤ :=
  (List.range L).foldl
    (fun lplm l =>
      (if alpha (l * T + t) > 0 then (l : ℤ) else lplm.1,
       if alpha (l * T + t) < 0 then (l : ℤ) else lplm.2))
    (-1, -1)

def transition_levels_checked (L T : ℕ) (alpha : ℕ → ℚ) (t : ℕ) : Option (ℤ × ℤ) :=
  let lplm := transition_levels L T alpha t
  if lplm.1 < 0 ∨ lplm.2 < 0 then none else some lplm

/-- Non-radiative transitions
(`multilevel_nonlinear_susceptibility::update_P`, lines 672-678): the
source assigns the literal 1 instead of the loop variable l:
`if (beta[l * C + crossection] > 0) lp = 1;` and
`if (beta[l * C + crossection] < 0) lm = 1;`. -/
def beta_levels (L C : ℕ) (beta : ℕ → ℚ) (crossection : ℕ) : ℤ × ℤ :=
  (List.range L).foldl
    (fun lplm l =>
      (if beta (l * C + crossection) > 0 then (1 : ℤ) else lplm.1,
       if beta (l * C + crossection) < 0 then (1 : ℤ) else lplm.2))
    (-1, -1)

def beta_levels_checked (L C : ℕ) (beta : ℕ → ℚ) (crossection : ℕ) : Option (ℤ × ℤ) :=
  let lplm := beta_levels L C beta crossection
  if lplm.1 < 0 ∨ lplm.2 < 0 then none else some lplm

/-- Claim C4.  With L=3, C=1 and a beta column whose positive entry sits
at level 0 and whose negative entry sits at level 2, the extended
update_P identifies lp = 1 and lm = 1 (the loop assigns the literal 1,
not the level index), whereas the convention the claim states (and the
alpha loop implements) would give lp = 0, lm = 2. -/
theorem beta_levels_literal_one_bug :
    beta_levels 3 1 (fun n => if n = 0 then 1 else if n = 2 then -1 else 0) 0 = (1, 1) ∧
    transition_levels 3 1 (fun n => if n = 0 then 1 else if n = 2 then -1 else 0) 0 = (0, 2) ∧
    ((1 : ℤ), (1 : ℤ)) ≠ ((0 : ℤ), (2 : ℤ)) := by
  refine ⟨by decide, by decide, by decide⟩

/-- Helper for Claim C7: if no element of ls has a positive alpha entry
for transition t, the first component of the fold keeps its initial
value. -/
theorem transition_levels_foldl_fst (T : ℕ) (alpha : ℕ → ℚ) (t : ℕ) :
    ∀ (ls : List ℕ) (a b : ℤ), (∀ l ∈ ls, ¬ alpha (l * T + t) > 0) →
      (ls.foldl
        (fun lplm l =>
          (if alpha (l * T + t) > 0 then (l : ℤ) else lplm.1,
           if alpha (l * T + t) < 0 then (l : ℤ) else lplm.2))
        (a, b)).1 = a := by
  intro ls
  induction ls with
  | nil => intro a b _; rfl
  | cons c rest ih =>
      intro a b h
      have hc : ¬ alpha (c * T + t) > 0 := h c (List.mem_cons_self c rest)
      have hrest : ∀ l ∈ rest, ¬ alpha (l * T + t) > 0 :=
        fun l hl => h l (List.mem_cons_of_mem c hl)
      simp only [List.foldl_cons, if_neg hc]
      exact ih a _ hrest

/-- Helper for Claim C7: the mirror statement for the negative entries. -/
theorem transition_levels_foldl_snd (T : ℕ) (alpha : ℕ → ℚ) (t : ℕ) :
    ∀ (ls : List ℕ) (a b : ℤ), (∀ l ∈ ls, ¬ alpha (l * T + t) < 0) →
      (ls.foldl
        (fun lplm l =>
          (if alpha (l * T + t) > 0 then (l : ℤ) else lplm.1,
           if alpha (l * T + t) < 0 then (l : ℤ) else lplm.2))
        (a, b)).2 = b := by
  intro ls
  induction ls with
  | nil => intro a b _; rfl
  | cons c rest ih =>
      intro a b h
      have hc : ¬ alpha (c * T + t) < 0 := h c (List.mem_cons_self c rest)
      have hrest : ∀ l ∈ rest, ¬ alpha (l * T + t) < 0 :=
        fun l hl => h l (List.mem_cons_of_mem c hl)
      simp only [List.foldl_cons, if_neg hc]
      exact ih _ b hrest

/-! ### Transition lookup used by the coherence coupling
(`correspond_radiative_transition`, lines 892-901, and
`correspond_nonradiative_transition`, lines 903-912): linear search for
the first transition whose column is nonzero at both levels; the caller
(lines 705-719 and 729-743) consults the non-radiative table first and
aborts when both searches fail. -/

def correspond_radiative_transition (T : ℕ) (alpha : ℕ → ℚ) (l1 l2 : ℕ) : Option ℕ :=
  (List.range T).find? fun radiative =>
    decide (alpha (l1 * T + radiative) ≠ 0 ∧ alpha (l2 * T + radiative) ≠ 0)

def correspond_nonradiative_transition (C : ℕ) (beta : ℕ → ℚ) (l1 l2 : ℕ) : Option ℕ :=
  (List.range C).find? fun nonradiative =>
    decide (beta (l1 * C + nonradiative) ≠ 0 ∧ beta (l2 * C + nonradiative) ≠ 0)

/-- The level-pair lookup of the coherence-coupling terms: non-radiative
table first, then radiative, abort (none) when both fail.
Sum.inl = a coherence (V) slot, Sum.inr = a polarization (P) slot. -/
def transition_lookup (T C : ℕ) (alpha beta : ℕ → ℚ) (l1 l2 : ℕ) : Option (ℕ ⊕ ℕ) :=
  match correspond_nonradiative_transition C beta l1 l2 with
  | some nonradiative => some (Sum.inl nonradiative)
  | none =>
      match correspond_radiative_transition T alpha l1 l2 with
      | some radiative => some (Sum.inr radiative)
      | none => none

/-- Claim C6.  The coherence-coupling lookup searches the non-radiative
table before the radiative one, so a level pair matching both resolves
to the non-radiative transition; and when neither table connects the
pair the lookup yields the fatal none (the source aborts with
"failed to correspond transition index to level indexes"). -/
theorem transition_lookup_priority_and_fatal (T C : ℕ) (alpha beta : ℕ → ℚ) (l1 l2 : ℕ) :
    (∀ nonradiative, correspond_nonradiative_transition C beta l1 l2 = some nonradiative →
      transition_lookup T C alpha beta l1 l2 = some (Sum.inl nonradiative)) ∧
    (correspond_nonradiative_transition C beta l1 l2 = none →
      correspond_radiative_transition T alpha l1 l2 = none →
      transition_lookup T C alpha beta l1 l2 = none) := by
  constructor
  · intro nonradiative h
    unfold transition_lookup
    rw [h]
  · intro h1 h2
    unfold transition_lookup
    rw [h1, h2]

/-- Witness for Claim C6 at a concrete transition network where the
level pair (0, 1) matches both a radiative and a non-radiative
transition: the lookup resolves to the non-radiative one. -/
theorem transition_lookup_priority_witness :
    transition_lookup 1 1 (fun _ => 1) (fun _ => 1) 0 1 = some (Sum.inl 0) :=
  (transition_lookup_priority_and_fatal 1 1 (fun _ => 1) (fun _ => 1) 0 1).1 0 (by decide)

/-! ### Exposure of the polarization slices to the surrounding solver
(`num_cinternal_notowned_needed`, lines 224-228 and 575-579;
`cinternal_notowned_ptr`, lines 230-236 and 581-588; both variants are
textually identical).  A pointer is modelled as the offset, within the
internal buffer, of element n of the requested transition slice. -/

structure NotownedData where
  P : ℕ → ℕ → Option (ℕ → ℕ)

def num_cinternal_notowned_needed (T : ℕ) (d : NotownedData) (c : ℕ) : ℕ :=
  if (d.P c 0).isSome then T else 0

def cinternal_notowned_ptr (T : ℕ) (dopt : Option NotownedData)
    (inotowned : ℤ) (c cmp n : ℕ) : Option ℕ :=
  match dopt with
  | none => none
  | some d =>
      match d.P c cmp with
      | none => none
      | some tbl =>
          if inotowned < 0 ∨ (T : ℤ) ≤ inotowned then none
          else some (tbl inotowned.toNat + n)

/-- Claim C10.  num_cinternal_notowned_needed returns T exactly when the
real-part polarization table for the component exists and 0 otherwise;
cinternal_notowned_ptr returns none (never a fatal error) for a null
data pointer, a missing (c, cmp) table, or a transition index outside
[0, T), and otherwise the address of element n of the stored slice. -/
theorem cinternal_notowned_contract (T : ℕ) (d : NotownedData)
    (inotowned : ℤ) (c cmp n : ℕ) :
    ((d.P c 0).isSome = true → num_cinternal_notowned_needed T d c = T) ∧
    (d.P c 0 = none → num_cinternal_notowned_needed T d c = 0) ∧
    cinternal_notowned_ptr T none inotowned c cmp n = none ∧
    (d.P c cmp = none → cinternal_notowned_ptr T (some d) inotowned c cmp n = none) ∧
    (inotowned < 0 ∨ (T : ℤ) ≤ inotowned →
      cinternal_notowned_ptr T (some d) inotowned c cmp n = none) ∧
    (∀ tbl, d.P c cmp = some tbl → 0 ≤ inotowned → inotowned < (T : ℤ) →
      cinternal_notowned_ptr T (some d) inotowned c cmp n =
        some (tbl inotowned.toNat + n)) := by
  refine ⟨?_, ?_, rfl, ?_, ?_, ?_⟩
  · intro h
    unfold num_cinternal_notowned_needed
    rw [h]
    rfl
  · intro h
    unfold num_cinternal_notowned_needed
    rw [h]
    rfl
  · intro h
    simp only [cinternal_notowned_ptr, h]
  · intro h
    cases htbl : d.P c cmp with
    | none => simp only [cinternal_notowned_ptr, htbl]
    | some tbl => simp only [cinternal_notowned_ptr, htbl, if_pos h]
  · intro tbl htbl h0 hT
    have hcond : ¬ (inotowned < 0 ∨ (T : ℤ) ≤ inotowned) := by
      push_neg
      exact ⟨h0, hT⟩
    simp only [cinternal_notowned_ptr, htbl, if_neg hcond]

/-- Witness for Claim C10 at a concrete internal-data table: component 0
has a stored table with slice bases 10*t, so the count is T = 3 and the
pointer to element 4 of transition 2 is offset 24; transition index 3 is
out of range and yields none. -/
theorem cinternal_notowned_contract_witness :
    num_cinternal_notowned_needed 3
      ⟨fun c _ => if c = 0 then some (fun t => 10 * t) else none⟩ 0 = 3 ∧
    cinternal_notowned_ptr 3
      (some ⟨fun c _ => if c = 0 then some (fun t => 10 * t) else none⟩) 2 0 0 4 =
      some 24 ∧
    cinternal_notowned_ptr 3
      (some ⟨fun c _ => if c = 0 then some (fun t => 10 * t) else none⟩) 3 0 0 4 =
      none := by
  refine ⟨?_, ?_, ?_⟩
  · exact (cinternal_notowned_contract 3
      ⟨fun c _ => if c = 0 then some (fun t => 10 * t) else none⟩ 2 0 0 4).1 (by decide)
  · exact (cinternal_notowned_contract 3
      ⟨fun c _ => if c = 0 then some (fun t => 10 * t) else none⟩ 2 0 0 4).2.2.2.2.2
      (fun t => 10 * t) rfl (by decide) (by decide)
  · exact (cinternal_notowned_contract 3
      ⟨fun c _ => if c = 0 then some (fun t => 10 * t) else none⟩ 3 0 0 4).2.2.2.2.1
      (by decide)

/-! ### Polarization oscillator update (both variants; lines 326-381 and
759-818 are textually identical)

For one transition t and one stored (component, cmp) pair with non-null
field array w and sigma array s, the source walks every owned grid
point i and replaces p[i], pp[i].  The population array N is flat
(N[i*L + level]); the cent2yee offsets o1, o2 are multiplied by L before
use.  The constants of the source's preamble (lines 327-330):
omega2pi = 2*pi*omega[t], g2pi = gamma[t]*2*pi, gperp = gamma[t]*pi,
omega0dtsqrCorrected = omega2pi^2*dt^2 + gperp^2*dt^2,
gamma1inv = 1/(1 + g2pi*dt/2), gamma1 = 1 - g2pi*dt/2, dtsqr = dt*dt. -/

structure PolParams where
  dt : ℚ
  ppi : ℚ
  omegat : ℚ
  gammat : ℚ
  st : ℚ

/-- The 4-corner population inversion dNi of lines 370-372:
0.25 * (Ni[lp] + Ni[lp+o1] + Ni[lp+o2] + Ni[lp+o1+o2]
        - Ni[lm] - Ni[lm+o1] - Ni[lm+o2] - Ni[lm+o1+o2])
with Ni = N + i*L and o1, o2 already multiplied by L. -/
def dNi_val (L : ℕ) (N : ℤ → ℚ) (lp lm : ℤ) (i o1 o2 : ℤ) : ℚ :=
  let q1 : ℤ := o1 * L
  let q2 : ℤ := o2 * L
  (1 / 4) * (N (i * L + lp) + N (i * L + lp + q1) + N (i * L + lp + q2) +
      N (i * L + lp + q1 + q2) -
    N (i * L + lm) - N (i * L + lm + q1) - N (i * L + lm + q2) -
      N (i * L + lm + q1 + q2))

/-- The value stored into p[i] by lines 373-374:
gamma1inv * (pcur*(2 - omega0dtsqrCorrected) - gamma1*pp[i]
             - dtsqr*(st*s[i]*w[i])*dNi). -/
def polarization_point_value (L : ℕ) (pr : PolParams) (s w N : ℤ → ℚ)
    (lp lm : ℤ) (o1 o2 : ℤ) (pcur pprev : ℚ) (i : ℤ) : ℚ :=
  let dt2 := (1 / 2) * pr.dt
  let omega2pi := 2 * pr.ppi * pr.omegat
  let g2pi := pr.gammat * 2 * pr.ppi
  let gperp := pr.gammat * pr.ppi
  let omega0dtsqrCorrected :=
    omega2pi * omega2pi * pr.dt * pr.dt + gperp * gperp * pr.dt * pr.dt
  let gamma1inv := 1 / (1 + g2pi * dt2)
  let gamma1 := 1 - g2pi * dt2
  let dtsqr := pr.dt * pr.dt
  gamma1inv * (pcur * (2 - omega0dtsqrCorrected) - gamma1 * pprev -
    dtsqr * (pr.st * s i * w i) * dNi_val L N lp lm i o1 o2)

/-- The loop body of lines 367-376: read pcur = p[i], write p[i] and
then pp[i] = pcur. -/
def polarization_step (L : ℕ) (pr : PolParams) (s w N : ℤ → ℚ)
    (lp lm : ℤ) (o1 o2 : ℤ) (state : (ℤ → ℚ) × (ℤ → ℚ)) (i : ℤ) :
    (ℤ → ℚ) × (ℤ → ℚ) :=
  (fun j => if j = i then
      polarization_point_value L pr s w N lp lm o1 o2 (state.1 i) (state.2 i) i
    else state.1 j,
   fun j => if j = i then state.1 i else state.2 j)

/-- LOOP_OVER_VOL_OWNED of lines 367-376, over the list of owned grid
points. -/
def polarization_sweep (L : ℕ) (pr : PolParams) (s w N : ℤ → ℚ)
    (lp lm : ℤ) (o1 o2 : ℤ) (owned : List ℤ) (p pp : ℤ → ℚ) :
    (ℤ → ℚ) × (ℤ → ℚ) :=
  owned.foldl (polarization_step L pr s w N lp lm o1 o2) (p, pp)

/-- The per-transition body of update_P (lines 326-381): locate the
coupled levels, abort (none) when a level is missing or when
off-diagonal saturable gain is requested (aniso, lines 354-365), and
otherwise run the isotropic point sweep. -/
def update_P_transition (L T : ℕ) (alpha : ℕ → ℚ) (t : ℕ) (pr : PolParams)
    (s w N : ℤ → ℚ) (o1 o2 : ℤ) (aniso : Bool) (owned : List ℤ)
    (p pp : ℤ → ℚ) : Option ((ℤ → ℚ) × (ℤ → ℚ)) :=
  match transition_levels_checked L T alpha t with
  | none => none
  | some lplm =>
      if aniso then none
      else some (polarization_sweep L pr s w N lplm.1 lplm.2 o1 o2 owned p pp)

/-- Points not in the owned list keep their polarization values. -/
theorem polarization_sweep_untouched (L : ℕ) (pr : PolParams) (s w N : ℤ → ℚ)
    (lp lm : ℤ) (o1 o2 : ℤ) (i : ℤ) :
    ∀ (owned : List ℤ) (p pp : ℤ → ℚ), i ∉ owned →
      (polarization_sweep L pr s w N lp lm o1 o2 owned p pp).1 i = p i ∧
      (polarization_sweep L pr s w N lp lm o1 o2 owned p pp).2 i = pp i := by
  intro owned
  induction owned with
  | nil => intro p pp _; exact ⟨rfl, rfl⟩
  | cons a rest ih =>
      intro p pp hni
      have hia : i ≠ a := fun h => hni (h ▸ List.mem_cons_self a rest)
      have hirest : i ∉ rest := fun h => hni (List.mem_cons_of_mem a h)
      have hstep :
          polarization_sweep L pr s w N lp lm o1 o2 (a :: rest) p pp =
            polarization_sweep L pr s w N lp lm o1 o2 rest
              (polarization_step L pr s w N lp lm o1 o2 (p, pp) a).1
              (polarization_step L pr s w N lp lm o1 o2 (p, pp) a).2 := by
        simp only [polarization_sweep, List.foldl_cons]
      rw [hstep]
      have h1 := ih (polarization_step L pr s w N lp lm o1 o2 (p, pp) a).1
        (polarization_step L pr s w N lp lm o1 o2 (p, pp) a).2 hirest
      refine ⟨h1.1.trans ?_, h1.2.trans ?_⟩
      · simp only [polarization_step, if_neg hia]
      · simp only [polarization_step, if_neg hia]

/-- The sweep acts pointwise: at an owned point i (the owned list is
duplicate-free) the new current value is the damped-oscillator formula
applied to the old p[i], pp[i], and the new previous value is the old
p[i]. -/
theorem polarization_sweep_at (L : ℕ) (pr : PolParams) (s w N : ℤ → ℚ)
    (lp lm : ℤ) (o1 o2 : ℤ) (i : ℤ) :
    ∀ (owned : List ℤ) (p pp : ℤ → ℚ), owned.Nodup → i ∈ owned →
      (polarization_sweep L pr s w N lp lm o1 o2 owned p pp).1 i =
        polarization_point_value L pr s w N lp lm o1 o2 (p i) (pp i) i ∧
      (polarization_sweep L pr s w N lp lm o1 o2 owned p pp).2 i = p i := by
  intro owned
  induction owned with
  | nil => intro p pp _ hmem; exact absurd hmem (List.not_mem_nil i)
  | cons a rest ih =>
      intro p pp hnd hmem
      have hstep :
          polarization_sweep L pr s w N lp lm o1 o2 (a :: rest) p pp =
            polarization_sweep L pr s w N lp lm o1 o2 rest
              (polarization_step L pr s w N lp lm o1 o2 (p, pp) a).1
              (polarization_step L pr s w N lp lm o1 o2 (p, pp) a).2 := by
        simp only [polarization_sweep, List.foldl_cons]
      rcases List.mem_cons.mp hmem with hia | hirest
      · subst hia
        have hnotrest : i ∉ rest := (List.nodup_cons.mp hnd).1
        rw [hstep]
        have h1 := polarization_sweep_untouched L pr s w N lp lm o1 o2 i rest
          (polarization_step L pr s w N lp lm o1 o2 (p, pp) i).1
          (polarization_step L pr s w N lp lm o1 o2 (p, pp) i).2 hnotrest
        refine ⟨h1.1.trans ?_, h1.2.trans ?_⟩
        · simp [polarization_step]
        · simp [polarization_step]
      · have hia : i ≠ a := by
          intro h
          exact (List.nodup_cons.mp hnd).1 (h ▸ hirest)
        rw [hstep]
        have h1 := ih (polarization_step L pr s w N lp lm o1 o2 (p, pp) a).1
          (polarization_step L pr s w N lp lm o1 o2 (p, pp) a).2
          (List.nodup_cons.mp hnd).2 hirest
        have hp1 : (polarization_step L pr s w N lp lm o1 o2 (p, pp) a).1 i = p i := by
          simp only [polarization_step, if_neg hia]
        have hp2 : (polarization_step L pr s w N lp lm o1 o2 (p, pp) a).2 i = pp i := by
          simp only [polarization_step, if_neg hia]
        rw [h1.1, h1.2, hp1, hp2]
        exact ⟨rfl, rfl⟩

/-- The polarization formula exactly as Claim C2 states it:
p_new = [p_cur*(2 - Omega) - (1 - Gamma_d)*p_prev
         - dt^2*sigmat*sigma(r)*E(r)*dN] / (1 + Gamma_d)
with Omega = dt^2*((2*pi*omega_t)^2 + (pi*gamma_t)^2) and
Gamma_d = pi*gamma_t*dt. -/
def p_new_claim (L : ℕ) (pr : PolParams) (s w N : ℤ → ℚ) (lp lm : ℤ)
    (o1 o2 : ℤ) (pcur pprev : ℚ) (i : ℤ) : ℚ :=
  let Omeg := pr.dt * pr.dt *
    ((2 * pr.ppi * pr.omegat) ^ 2 + (pr.ppi * pr.gammat) ^ 2)
  let Gammad := pr.ppi * pr.gammat * pr.dt
  (pcur * (2 - Omeg) - (1 - Gammad) * pprev -
    pr.dt * pr.dt * (pr.st * s i * w i) * dNi_val L N lp lm i o1 o2) /
    (1 + Gammad)

/-- The source's point value and the claim's formula agree exactly. -/
theorem polarization_point_value_eq_claim (L : ℕ) (pr : PolParams)
    (s w N : ℤ → ℚ) (lp lm : ℤ) (o1 o2 : ℤ) (pcur pprev : ℚ) (i : ℤ) :
    polarization_point_value L pr s w N lp lm o1 o2 pcur pprev i =
      p_new_claim L pr s w N lp lm o1 o2 pcur pprev i := by
  unfold polarization_point_value p_new_claim
  have hden : 1 + pr.gammat * 2 * pr.ppi * ((1 / 2) * pr.dt) =
      1 + pr.ppi * pr.gammat * pr.dt := by ring
  rw [one_div_mul_eq_div, hden]
  have hnum : pcur * (2 - (2 * pr.ppi * pr.omegat * (2 * pr.ppi * pr.omegat) *
        pr.dt * pr.dt + pr.gammat * pr.ppi * (pr.gammat * pr.ppi) * pr.dt * pr.dt)) -
      (1 - pr.gammat * 2 * pr.ppi * (1 / 2 * pr.dt)) * pprev -
      pr.dt * pr.dt * (pr.st * s i * w i) * dNi_val L N lp lm i o1 o2 =
      pcur * (2 - pr.dt * pr.dt *
        ((2 * pr.ppi * pr.omegat) ^ 2 + (pr.ppi * pr.gammat) ^ 2)) -
      (1 - pr.ppi * pr.gammat * pr.dt) * pprev -
      pr.dt * pr.dt * (pr.st * s i * w i) * dNi_val L N lp lm i o1 o2 := by
    ring
  rw [hnum]

/-- Claim C2.  For a valid transition (levels found), in the isotropic
branch, the per-transition update succeeds and at every owned grid
point the new polarization equals the claimed damped-oscillator formula
with the 4-corner-averaged population inversion, and the previous-value
array afterwards holds the old current value. -/
theorem update_P_polarization_formula (L T : ℕ) (alpha : ℕ → ℚ) (t : ℕ)
    (pr : PolParams) (s w N : ℤ → ℚ) (o1 o2 : ℤ) (owned : List ℤ)
    (p pp : ℤ → ℚ) (lp lm : ℤ) (i : ℤ)
    (hck : transition_levels_checked L T alpha t = some (lp, lm))
    (hnd : owned.Nodup) (hmem : i ∈ owned) :
    ∃ q, update_P_transition L T alpha t pr s w N o1 o2 false owned p pp = some q ∧
      q.1 i = p_new_claim L pr s w N lp lm o1 o2 (p i) (pp i) i ∧
      q.2 i = p i := by
  refine ⟨polarization_sweep L pr s w N lp lm o1 o2 owned p pp, ?_, ?_, ?_⟩
  · simp only [update_P_transition, hck, if_neg Bool.false_ne_true]
  · exact (polarization_sweep_at L pr s w N lp lm o1 o2 i owned p pp hnd hmem).1.trans
      (polarization_point_value_eq_claim L pr s w N lp lm o1 o2 (p i) (pp i) i)
  · exact (polarization_sweep_at L pr s w N lp lm o1 o2 i owned p pp hnd hmem).2

/-- Witness for Claim C2 at a concrete two-level configuration (L=2,
T=1, alpha column (1, -1), dt=1, all arrays constant, owned = [0]). -/
theorem update_P_polarization_formula_witness :
    ∃ q, update_P_transition 2 1 (fun n => if n = 0 then 1 else -1) 0
        ⟨1, 3, 1, 1, 1⟩ (fun _ => 1) (fun _ => 1) (fun _ => 1) 0 0 false [0]
        (fun _ => 1) (fun _ => 0) = some q ∧
      q.1 0 = p_new_claim 2 ⟨1, 3, 1, 1, 1⟩ (fun _ => 1) (fun _ => 1)
        (fun _ => 1) 0 1 0 0 1 0 0 ∧
      q.2 0 = 1 :=
  update_P_polarization_formula 2 1 (fun n => if n = 0 then 1 else -1) 0
    ⟨1, 3, 1, 1, 1⟩ (fun _ => 1) (fun _ => 1) (fun _ => 1) 0 0 [0]
    (fun _ => 1) (fun _ => 0) 0 1 0 (by decide) (by decide) (by decide)

/-- Claim C7.  A radiative transition whose alpha column has no strictly
positive entry, or no strictly negative entry, makes update_P abort
(model value none) before any polarization update for that transition. -/
theorem update_P_invalid_alpha_fatal (L T : ℕ) (alpha : ℕ → ℚ) (t : ℕ)
    (pr : PolParams) (s w N : ℤ → ℚ) (o1 o2 : ℤ) (aniso : Bool)
    (owned : List ℤ) (p pp : ℤ → ℚ)
    (h : (∀ l, l < L → ¬ alpha (l * T + t) > 0) ∨
      (∀ l, l < L → ¬ alpha (l * T + t) < 0)) :
    update_P_transition L T alpha t pr s w N o1 o2 aniso owned p pp = none := by
  have hck : transition_levels_checked L T alpha t = none := by
    rcases h with hpos | hneg
    · have hfst : (transition_levels L T alpha t).1 = -1 := by
        unfold transition_levels
        exact transition_levels_foldl_fst T alpha t (List.range L) (-1) (-1)
          (fun l hl => hpos l (List.mem_range.mp hl))
      unfold transition_levels_checked
      rw [if_pos (Or.inl (by rw [hfst]; decide))]
    · have hsnd : (transition_levels L T alpha t).2 = -1 := by
        unfold transition_levels
        exact transition_levels_foldl_snd T alpha t (List.range L) (-1) (-1)
          (fun l hl => hneg l (List.mem_range.mp hl))
      unfold transition_levels_checked
      rw [if_pos (Or.inr (by rw [hsnd]; decide))]
  simp only [update_P_transition, hck]

/-- Witness for Claim C7: an all-zero alpha column (L=2, T=1) aborts. -/
theorem update_P_invalid_alpha_fatal_witness :
    update_P_transition 2 1 (fun _ => 0) 0 ⟨1, 3, 1, 1, 1⟩ (fun _ => 1)
      (fun _ => 1) (fun _ => 1) 0 0 false [0] (fun _ => 1) (fun _ => 0) = none :=
  update_P_invalid_alpha_fatal 2 1 (fun _ => 0) 0 ⟨1, 3, 1, 1, 1⟩ (fun _ => 1)
    (fun _ => 1) (fun _ => 1) 0 0 false [0] (fun _ => 1) (fun _ => 0)
    (Or.inl (by decide))

/-! ### subtract_P (lines 384-403 and 821-840; textually identical)

for (t < T) { FOR_FT_COMPONENTS(ft, ec) DOCMP2 {
  if (d->P[ec][cmp]) { if (f_minus_p[dc][cmp]) {
    for (i < ntot) fmp[i] -= p[i]; } } } }

`keys` lists the (ec, cmp) iteration slots in order; `stored k` models
d->P[ec][cmp] being non-null, `present k` models f_minus_p[dc][cmp]
being non-null; `P k t` is the stored polarization slice of slot k and
transition t; the state is the family of f_minus_p arrays, indexed by
slot then grid point. -/

def subtract_inner (ntot : ℕ) (p f : ℕ → ℚ) : ℕ → ℚ :=
  (List.range ntot).foldl (fun g i2 => fun j => if j = i2 then g i2 - p i2 else g j) f

def subtract_keyfold (ntot : ℕ) (stored present : ℕ → Bool) (pt : ℕ → ℕ → ℚ)
    (keys : List ℕ) (G : ℕ → ℕ → ℚ) : ℕ → ℕ → ℚ :=
  keys.foldl
    (fun G2 k2 =>
      if stored k2 && present k2 then
        fun k3 => if k3 = k2 then subtract_inner ntot (pt k2) (G2 k2) else G2 k3
      else G2) G

def subtract_P_model (T ntot : ℕ) (keys : List ℕ) (stored present : ℕ → Bool)
    (P : ℕ → ℕ → ℕ → ℚ) (F : ℕ → ℕ → ℚ) : ℕ → ℕ → ℚ :=
  (List.range T).foldl
    (fun G t => subtract_keyfold ntot stored present (fun k2 => P k2 t) keys G) F

/-- The inner grid loop acts pointwise on a duplicate-free index list. -/
theorem subtract_fold_at (p : ℕ → ℚ) :
    ∀ (l : List ℕ) (f : ℕ → ℚ) (i : ℕ), l.Nodup →
      (l.foldl (fun g i2 => fun j => if j = i2 then g i2 - p i2 else g j) f) i =
        if i ∈ l then f i - p i else f i := by
  intro l
  induction l with
  | nil => intro f i _; simp
  | cons a rest ih =>
      intro f i hnd
      simp only [List.foldl_cons]
      rw [ih _ i (List.nodup_cons.mp hnd).2]
      by_cases hia : i = a
      · subst hia
        have hnr : i ∉ rest := (List.nodup_cons.mp hnd).1
        rw [if_neg hnr, if_pos (List.mem_cons_self i rest)]
        simp
      · have hmem : i ∈ a :: rest ↔ i ∈ rest :=
          ⟨fun h => (List.mem_cons.mp h).resolve_left hia, List.mem_cons_of_mem a⟩
        by_cases hir : i ∈ rest
        · rw [if_pos hir, if_pos (hmem.mpr hir)]
          simp [hia]
        · rw [if_neg hir, if_neg (fun h => hir (hmem.mp h))]
          simp [hia]

theorem subtract_inner_at (ntot : ℕ) (p f : ℕ → ℚ) (i : ℕ) :
    subtract_inner ntot p f i = if i < ntot then f i - p i else f i := by
  unfold subtract_inner
  rw [subtract_fold_at p (List.range ntot) f i (List.nodup_range ntot)]
  simp [List.mem_range]

/-- The component loop acts row-wise on a duplicate-free slot list. -/
theorem subtract_keyfold_row (ntot : ℕ) (stored present : ℕ → Bool) (pt : ℕ → ℕ → ℚ) :
    ∀ (keys : List ℕ) (G : ℕ → ℕ → ℚ) (k : ℕ), keys.Nodup →
      subtract_keyfold ntot stored present pt keys G k =
        if k ∈ keys ∧ stored k && present k = true then
          subtract_inner ntot (pt k) (G k)
        else G k := by
  intro keys
  induction keys with
  | nil => intro G k _; simp [subtract_keyfold]
  | cons a rest ih =>
      intro G k hnd
      simp only [subtract_keyfold, List.foldl_cons]
      have ihr := ih
        (if stored a && present a then
          fun k3 => if k3 = a then subtract_inner ntot (pt a) (G a) else G k3
        else G) k (List.nodup_cons.mp hnd).2
      simp only [subtract_keyfold] at ihr
      rw [ihr]
      by_cases hka : k = a
      · subst hka
        have hnr : k ∉ rest := (List.nodup_cons.mp hnd).1
        cases hb : stored k && present k with
        | false => simp [hnr, ← Bool.and_eq_true, hb]
        | true => simp [hnr, ← Bool.and_eq_true, hb]
      · have hmem : k ∈ a :: rest ↔ k ∈ rest :=
          ⟨fun h => (List.mem_cons.mp h).resolve_left hka, List.mem_cons_of_mem a⟩
        have hG : (if stored a && present a then
            fun k3 => if k3 = a then subtract_inner ntot (pt a) (G a) else G k3
          else G) k = G k := by
          cases hb : stored a && present a <;> simp [hb, hka]
        rw [hG]
        by_cases hkr : k ∈ rest
        · by_cases hbk : stored k && present k = true
          · rw [if_pos ⟨hkr, hbk⟩, if_pos ⟨hmem.mpr hkr, hbk⟩]
          · rw [if_neg (fun h => hbk h.2), if_neg (fun h => hbk h.2)]
        · rw [if_neg (fun h => hkr h.1), if_neg (fun h => hkr (hmem.mp h.1))]

/-- Accumulation of the transition loop at an active slot and owned
point. -/
theorem subtract_P_ts_at (ntot : ℕ) (keys : List ℕ) (stored present : ℕ → Bool)
    (P : ℕ → ℕ → ℕ → ℚ) (k i : ℕ) (hnd : keys.Nodup) (hk : k ∈ keys)
    (hb : stored k && present k = true) (hi : i < ntot) :
    ∀ (ts : List ℕ) (F : ℕ → ℕ → ℚ),
      (ts.foldl
        (fun G t => subtract_keyfold ntot stored present (fun k2 => P k2 t) keys G)
        F) k i =
      F k i - (ts.map fun t => P k t i).sum := by
  intro ts
  induction ts with
  | nil => intro F; simp
  | cons t rest ih =>
      intro F
      simp only [List.foldl_cons, List.map_cons, List.sum_cons]
      rw [ih]
      rw [subtract_keyfold_row ntot stored present (fun k2 => P k2 t) keys F k hnd,
        if_pos ⟨hk, hb⟩, subtract_inner_at, if_pos hi]
      ring

/-- A slot that is not stored, or whose field array is absent, is never
written. -/
theorem subtract_P_ts_id (ntot : ℕ) (keys : List ℕ) (stored present : ℕ → Bool)
    (P : ℕ → ℕ → ℕ → ℚ) (k : ℕ) (hnd : keys.Nodup)
    (h : ¬ (k ∈ keys ∧ stored k && present k = true)) :
    ∀ (ts : List ℕ) (F : ℕ → ℕ → ℚ),
      (ts.foldl
        (fun G t => subtract_keyfold ntot stored present (fun k2 => P k2 t) keys G)
        F) k = F k := by
  intro ts
  induction ts with
  | nil => intro F; rfl
  | cons t rest ih =>
      intro F
      simp only [List.foldl_cons]
      rw [ih]
      rw [subtract_keyfold_row ntot stored present (fun k2 => P k2 t) keys F k hnd,
        if_neg h]

/-- Grid points at or beyond ntot are never written. -/
theorem subtract_P_ts_ge (ntot : ℕ) (keys : List ℕ) (stored present : ℕ → Bool)
    (P : ℕ → ℕ → ℕ → ℚ) (k i : ℕ) (hnd : keys.Nodup) (hi : ¬ i < ntot) :
    ∀ (ts : List ℕ) (F : ℕ → ℕ → ℚ),
      (ts.foldl
        (fun G t => subtract_keyfold ntot stored present (fun k2 => P k2 t) keys G)
        F) k i = F k i := by
  intro ts
  induction ts with
  | nil => intro F; rfl
  | cons t rest ih =>
      intro F
      simp only [List.foldl_cons]
      rw [ih]
      rw [subtract_keyfold_row ntot stored present (fun k2 => P k2 t) keys F k hnd]
      by_cases hc : k ∈ keys ∧ stored k && present k = true
      · rw [if_pos hc, subtract_inner_at, if_neg hi]
      · rw [if_neg hc]

/-- Claim C9.  subtract_P subtracts, for every stored slot with a
present field array and every grid point below ntot, the sum over all T
transitions of the stored polarization from the field array, in place;
it mutates no other slot and no point at or beyond ntot; and applying
it twice with unmodified polarization data yields the original field
minus twice the summed polarization. -/
theorem subtract_P_contract (T ntot : ℕ) (keys : List ℕ)
    (stored present : ℕ → Bool) (P : ℕ → ℕ → ℕ → ℚ) (F : ℕ → ℕ → ℚ)
    (k i : ℕ) (hnd : keys.Nodup) :
    (k ∈ keys → stored k && present k = true → i < ntot →
      subtract_P_model T ntot keys stored present P F k i =
        F k i - ((List.range T).map fun t => P k t i).sum ∧
      subtract_P_model T ntot keys stored present P
          (subtract_P_model T ntot keys stored present P F) k i =
        F k i - 2 * ((List.range T).map fun t => P k t i).sum) ∧
    (¬ (k ∈ keys ∧ stored k && present k = true) →
      subtract_P_model T ntot keys stored present P F k i = F k i) ∧
    (¬ i < ntot →
      subtract_P_model T ntot keys stored present P F k i = F k i) := by
  refine ⟨?_, ?_, ?_⟩
  · intro hk hb hi
    have h1 := subtract_P_ts_at ntot keys stored present P k i hnd hk hb hi
      (List.range T) F
    have h2 := subtract_P_ts_at ntot keys stored present P k i hnd hk hb hi
      (List.range T) (subtract_P_model T ntot keys stored present P F)
    refine ⟨h1, ?_⟩
    unfold subtract_P_model
    unfold subtract_P_model at h2
    rw [h2, h1]
    ring
  · intro h
    unfold subtract_P_model
    rw [subtract_P_ts_id ntot keys stored present P k hnd h (List.range T) F]
  · intro hi
    unfold subtract_P_model
    rw [subtract_P_ts_ge ntot keys stored present P k i hnd hi (List.range T) F]

/-- Witness for Claim C9 at a concrete configuration: two transitions,
two grid points, slot 0 stored with a present field array, slot 1 not
stored. -/
theorem subtract_P_contract_witness :
    (subtract_P_model 2 2 [0, 1] (fun k => k == 0) (fun _ => true)
        (fun k t _ => (k + 1) * (t + 1)) (fun _ _ => 100) 0 1 =
        100 - ((List.range 2).map fun t => ((0 + 1) * (t + 1) : ℚ)).sum ∧
      subtract_P_model 2 2 [0, 1] (fun k => k == 0) (fun _ => true)
          (fun k t _ => (k + 1) * (t + 1))
          (subtract_P_model 2 2 [0, 1] (fun k => k == 0) (fun _ => true)
            (fun k t _ => (k + 1) * (t + 1)) (fun _ _ => 100)) 0 1 =
        100 - 2 * ((List.range 2).map fun t => ((0 + 1) * (t + 1) : ℚ)).sum) ∧
    subtract_P_model 2 2 [0, 1] (fun k => k == 0) (fun _ => true)
        (fun k t _ => (k + 1) * (t + 1)) (fun _ _ => 100) 1 1 = 100 := by
  constructor
  · exact (subtract_P_contract 2 2 [0, 1] (fun k => k == 0) (fun _ => true)
      (fun k t _ => (k + 1) * (t + 1)) (fun _ _ => 100) 0 1 (by decide)).1
      (by decide) (by decide) (by decide)
  · exact (subtract_P_contract 2 2 [0, 1] (fun k => k == 0) (fun _ => true)
      (fun k t _ => (k + 1) * (t + 1)) (fun _ _ => 100) 1 1 (by decide)).2.1
      (by decide)

/-! ### Internal-data cloning (copy_internal_data, lines 198-222 and
511-558)

The heap is modelled as a map from buffer id to buffer contents; an
instance owns one buffer id and records, for each (component, cmp)
iteration slot, the base offset of its polarization block inside that
buffer (none when the slot has no table), plus the derived Ntmp, N and
(extended) V base offsets.  copy_internal_data memcpy-s the whole
buffer into a fresh buffer and re-derives every offset from the copied
pointer tables (`if (d->P[c][cmp])`), walking the same layout the init
walked from needs_P. -/

/-- The P-block walk shared by init_internal_data (lines 163-176 and
470-485) and copy_internal_data (lines 204-218 and 523-538): starting
at base = L*L, each active slot takes T transition blocks and advances
the running pointer by step = 2*ntot*T. -/
def assignBases : List Bool → ℕ → ℕ → List (Option ℕ)
  | [], _, _ => []
  | b :: rest, base, step =>
      (if b then some base else none) ::
        assignBases rest (if b then base + step else base) step

structure MLState where
  bufId : ℕ
  Pbase : List (Option ℕ)
  Ntmpbase : ℕ
  Nbase : ℕ
  Vbase : ℕ

/-- Layout produced by init_internal_data from the needs_P flags:
GammaInv at 0, the P walk from L*L, Ntmp right after the P region, N
after Ntmp, and (extended) the V region after the (ntot+1)*L population
block. -/
def init_layout (L T ntot : ℕ) (needs : List Bool) (bid : ℕ) : MLState :=
  { bufId := bid
    Pbase := assignBases needs (L * L) (2 * ntot * T)
    Ntmpbase := L * L + needs_count (2 * ntot * T) needs
    Nbase := L * L + needs_count (2 * ntot * T) needs + L
    Vbase := L * L + needs_count (2 * ntot * T) needs + L * (ntot + 1) }

def memcpy_clone (h : ℕ → ℕ → ℚ) (src dst : ℕ) : ℕ → ℕ → ℚ :=
  fun b => if b = dst then h src else h b

def heapWrite (h : ℕ → ℕ → ℚ) (bid off : ℕ) (v : ℚ) : ℕ → ℕ → ℚ :=
  fun b => if b = bid then fun o => if o = off then v else h b o else h b

/-- copy_internal_data: memcpy the buffer to a fresh id, then re-derive
every sub-array offset by re-walking the layout over the copied
non-null-table flags (the source condition is d->P[c][cmp], not
needs_P). -/
def copy_internal_data_model (L T ntot : ℕ) (h : ℕ → ℕ → ℚ) (d : MLState)
    (newId : ℕ) : (ℕ → ℕ → ℚ) × MLState :=
  (memcpy_clone h d.bufId newId,
   { bufId := newId
     Pbase := assignBases (d.Pbase.map Option.isSome) (L * L) (2 * ntot * T)
     Ntmpbase := L * L + needs_count (2 * ntot * T) (d.Pbase.map Option.isSome)
     Nbase := L * L + needs_count (2 * ntot * T) (d.Pbase.map Option.isSome) + L
     Vbase := L * L + needs_count (2 * ntot * T) (d.Pbase.map Option.isSome) +
       L * (ntot + 1) })

/-- The non-null-table flags recorded by the layout walk are exactly the
needs_P flags it was walked from. -/
theorem assignBases_isSome :
    ∀ (needs : List Bool) (base step : ℕ),
      (assignBases needs base step).map Option.isSome = needs := by
  intro needs
  induction needs with
  | nil => intro base step; rfl
  | cons b rest ih =>
      intro base step
      cases b <;> simp [assignBases, ih]

/-- Claim C8.  Cloning an initialized internal-data buffer copies its
entire contents into the clone's own fresh buffer, re-derives every
polarization, population and coherence base offset identically to the
source's (by re-walking the layout, not by reusing the source's
pointers), and any later write through the clone's buffer leaves the
source's buffer untouched. -/
theorem copy_internal_data_deep (L T ntot : ℕ) (h : ℕ → ℕ → ℚ)
    (needs : List Bool) (bid newId : ℕ) (hfresh : newId ≠ bid) :
    ((copy_internal_data_model L T ntot h (init_layout L T ntot needs bid) newId).1
        newId =
      h bid) ∧
    ((copy_internal_data_model L T ntot h (init_layout L T ntot needs bid) newId).2.Pbase =
      (init_layout L T ntot needs bid).Pbase) ∧
    ((copy_internal_data_model L T ntot h (init_layout L T ntot needs bid) newId).2.Ntmpbase =
      (init_layout L T ntot needs bid).Ntmpbase) ∧
    ((copy_internal_data_model L T ntot h (init_layout L T ntot needs bid) newId).2.Nbase =
      (init_layout L T ntot needs bid).Nbase) ∧
    ((copy_internal_data_model L T ntot h (init_layout L T ntot needs bid) newId).2.Vbase =
      (init_layout L T ntot needs bid).Vbase) ∧
    ((copy_internal_data_model L T ntot h (init_layout L T ntot needs bid) newId).2.bufId =
      newId) ∧
    (∀ off v,
      heapWrite (copy_internal_data_model L T ntot h (init_layout L T ntot needs bid) newId).1
          newId off v bid =
        (copy_internal_data_model L T ntot h (init_layout L T ntot needs bid) newId).1
          bid) := by
  have hflags : ((init_layout L T ntot needs bid).Pbase.map Option.isSome) = needs := by
    simp only [init_layout]
    exact assignBases_isSome needs (L * L) (2 * ntot * T)
  refine ⟨?_, ?_, ?_, ?_, ?_, rfl, ?_⟩
  · simp [copy_internal_data_model, memcpy_clone, init_layout]
  · simp only [copy_internal_data_model, init_layout, assignBases_isSome]
  · simp only [copy_internal_data_model, init_layout, assignBases_isSome]
  · simp only [copy_internal_data_model, init_layout, assignBases_isSome]
  · simp only [copy_internal_data_model, init_layout, assignBases_isSome]
  · intro off v
    simp only [heapWrite]
    rw [if_neg (fun hh : bid = newId => hfresh hh.symm)]

/-- Witness for Claim C8 at a concrete heap and layout: one stored slot
out of two, source buffer 0, clone buffer 1. -/
theorem copy_internal_data_deep_witness :
    ((copy_internal_data_model 2 1 4 (fun (b o : ℕ) => (b : ℚ) + o)
        (init_layout 2 1 4 [true, false] 0) 1).1 1 = (fun (b o : ℕ) => (b : ℚ) + o) 0) ∧
    ((copy_internal_data_model 2 1 4 (fun (b o : ℕ) => (b : ℚ) + o)
        (init_layout 2 1 4 [true, false] 0) 1).2.Pbase =
      (init_layout 2 1 4 [true, false] 0).Pbase) ∧
    ((copy_internal_data_model 2 1 4 (fun (b o : ℕ) => (b : ℚ) + o)
        (init_layout 2 1 4 [true, false] 0) 1).2.Ntmpbase =
      (init_layout 2 1 4 [true, false] 0).Ntmpbase) ∧
    ((copy_internal_data_model 2 1 4 (fun (b o : ℕ) => (b : ℚ) + o)
        (init_layout 2 1 4 [true, false] 0) 1).2.Nbase =
      (init_layout 2 1 4 [true, false] 0).Nbase) ∧
    ((copy_internal_data_model 2 1 4 (fun (b o : ℕ) => (b : ℚ) + o)
        (init_layout 2 1 4 [true, false] 0) 1).2.Vbase =
      (init_layout 2 1 4 [true, false] 0).Vbase) ∧
    ((copy_internal_data_model 2 1 4 (fun (b o : ℕ) => (b : ℚ) + o)
        (init_layout 2 1 4 [true, false] 0) 1).2.bufId = 1) ∧
    (∀ off v,
      heapWrite (copy_internal_data_model 2 1 4 (fun (b o : ℕ) => (b : ℚ) + o)
          (init_layout 2 1 4 [true, false] 0) 1).1 1 off v 0 =
        (copy_internal_data_model 2 1 4 (fun (b o : ℕ) => (b : ℚ) + o)
          (init_layout 2 1 4 [true, false] 0) 1).1 0) :=
  copy_internal_data_deep 2 1 4 (fun (b o : ℕ) => (b : ℚ) + o) [true, false] 0 1 (by decide)

/-! ### Coherence (V) update of the extended variant
(`multilevel_nonlinear_susceptibility::update_P`, lines 670-756)

Per crossection and per grid point i, the source iterates
FOR_COMPONENTS(c) DOCMP2 and inside each (c, cmp) iteration assigns
(operator =, lines 689-690) the two drho slots from the autonomous
decay/precession terms, then accumulates (operator +=) commutator
coupling terms over every intermediate level lk and transition; finally
(lines 750-754) V_prev takes the old V and V is incremented by drho.

Modelling notes for constructs that do not type-check in the source:
the reads v[cmp][i] (lines 689-690, v is already the realnum pointer
d->V[cmp][crossection]) are taken as v[i]; the reads sigma[i]
(lines 702, 726, sigma is the per-component table of the susceptibility
base class) are taken as s[i] with s = sigma[c][component_direction(c)]
(line 685), carried per item as `si`; the helper `sign(cmp, j)` is
declared outside this file's sources and is kept as an abstract
function parameter sg.  `items` lists the iterated (component, cmp)
pairs with their direction, sigma and field values at i and their
polarization slices at i; Vc/Vp give V[cmp][crossection][i] and
V_prev[cmp][crossection][i]. -/

/-- Source function conjugate (lines 914-925): swap the real/imaginary
slot index. -/
def conjugate (cmp : ℕ) : ℕ := if cmp = 0 then 1 else 0

def dget (d : ℚ × ℚ) (j : ℕ) : ℚ := if j = 0 then d.1 else d.2

def dset (d : ℚ × ℚ) (j : ℕ) (v : ℚ) : ℚ × ℚ := if j = 0 then (v, d.2) else (d.1, v)

structure CohItem where
  cmp : ℕ
  dir : ℕ
  si : ℚ
  wi : ℚ
  Pc : ℕ → ℚ
  Pp : ℕ → ℚ

/-- Inner transition loop body (lines 694-746): the former commutator
term (guard alpha[lp*T+tr] and alpha[lk*T+tr] nonzero, lookup (lk, lm),
added) and the latter term (guard alpha[lk*T+tr] and alpha[lm*T+tr]
nonzero, lookup (lp, lk), subtracted); a failed lookup in both tables
aborts (none). -/
def coh_tr_step (T C : ℕ) (alpha beta sigmat : ℕ → ℚ) (dt2 : ℚ)
    (sg : ℕ → ℕ → ℚ) (Vc Vp : ℕ → ℕ → ℚ) (lp lm : ℕ) (it : CohItem) (lk : ℕ)
    (dr : Option (ℚ × ℚ)) (tr : ℕ) : Option (ℚ × ℚ) :=
  match dr with
  | none => none
  | some drho =>
      let step1 : Option (ℚ × ℚ) :=
        if alpha (lp * T + tr) ≠ 0 ∧ alpha (lk * T + tr) ≠ 0 then
          let st := sigmat (5 * tr + it.dir)
          let interaction_factor := st * it.si * it.wi
          match correspond_nonradiative_transition C beta lk lm with
          | some nonradiative =>
              some (dset drho (conjugate it.cmp)
                (dget drho (conjugate it.cmp) +
                  sg it.cmp 1 * interaction_factor *
                    (Vc it.cmp nonradiative + Vp it.cmp nonradiative) * dt2))
          | none =>
              match correspond_radiative_transition T alpha lk lm with
              | some radiative =>
                  some (dset drho (conjugate it.cmp)
                    (dget drho (conjugate it.cmp) +
                      sg it.cmp 1 * interaction_factor *
                        (it.Pc radiative + it.Pp radiative) * dt2))
              | none => none
        else some drho
      match step1 with
      | none => none
      | some drho1 =>
          if alpha (lk * T + tr) ≠ 0 ∧ alpha (lm * T + tr) ≠ 0 then
            let st := sigmat (5 * tr + it.dir)
            let interaction_factor := st * it.si * it.wi
            match correspond_nonradiative_transition C beta lp lk with
            | some nonradiative =>
                some (dset drho1 (conjugate it.cmp)
                  (dget drho1 (conjugate it.cmp) -
                    sg it.cmp 1 * interaction_factor *
                      (Vc it.cmp nonradiative + Vp it.cmp nonradiative) * dt2))
            | none =>
                match correspond_radiative_transition T alpha lp lk with
                | some radiative =>
                    some (dset drho1 (conjugate it.cmp)
                      (dget drho1 (conjugate it.cmp) -
                        sg it.cmp 1 * interaction_factor *
                          (it.Pc radiative + it.Pp radiative) * dt2))
                | none => none
          else some drho1

/-- One (component, cmp) iteration (lines 683-748): the autonomous
terms are assigned (operator =, overwriting the accumulated state) into
slot cmp and slot conjugate(cmp), then the double loop over lk and
transitions accumulates the commutator terms. -/
def coh_item_step (L T C : ℕ) (alpha beta sigmat : ℕ → ℚ)
    (dt2 gdec onr : ℚ) (sg : ℕ → ℕ → ℚ) (Vc Vp : ℕ → ℕ → ℚ)
    (lp lm cr : ℕ) (dr : Option (ℚ × ℚ)) (it : CohItem) : Option (ℚ × ℚ) :=
  match dr with
  | none => none
  | some drho =>
      let d1 := dset drho it.cmp (-(sg it.cmp 0) * gdec * Vc it.cmp cr)
      let d2 := dset d1 (conjugate it.cmp) (-(sg it.cmp 1) * onr * Vc it.cmp cr)
      (List.range L).foldl
        (fun dr2 lk =>
          (List.range T).foldl
            (coh_tr_step T C alpha beta sigmat dt2 sg Vc Vp lp lm it lk) dr2)
        (some d2)

/-- The whole per-point coherence update for one crossection
(lines 671-755): find the coupled levels from beta (aborting on a
missing entry), run the component loop starting from drho = (0, 0),
then set V_prev to the old V and increment V by drho. -/
def coherence_point_update (L T C : ℕ) (alpha beta sigmat : ℕ → ℚ)
    (dt2 : ℚ) (gamma_decoherence omega_nonradiative : ℕ → ℚ)
    (sg : ℕ → ℕ → ℚ) (items : List CohItem) (Vc Vp : ℕ → ℕ → ℚ) (cr : ℕ) :
    Option ((ℚ × ℚ) × (ℚ × ℚ)) :=
  match beta_levels_checked L C beta cr with
  | none => none
  | some lplm =>
      match items.foldl
        (coh_item_step L T C alpha beta sigmat dt2 (gamma_decoherence cr)
          (omega_nonradiative cr) sg Vc Vp lplm.1.toNat lplm.2.toNat cr)
        (some (0, 0)) with
      | none => none
      | some drho =>
          some ((Vc 0 cr + drho.1, Vc 1 cr + drho.2), (Vc 0 cr, Vc 1 cr))

/-- Claim C5.  Evaluating the extended coherence update at a concrete
configuration (L=3, T=1, C=1, one stored component with both complex
parts, sign taken constant 1, decoherence rate 2, beat frequency 3,
V = (5, 7), V_prev = 0, nonzero polarization 11/13 and 17/19): the
final rate-of-change is drho = (-21, -14), i.e. exactly the autonomous
terms of the LAST (component, part) iteration.  The first iteration's
autonomous terms (-10, -15) were overwritten (the source assigns drho
with = inside the component loop), and every commutator coupling
contribution cancelled in pairs because the beta loop sets lp = lm = 1,
making the former and latter terms identical; the claim instead
requires drho to be the accumulated sum of the autonomous and coupling
terms over every stored component/part.  The new V is V + drho and
V_prev takes the old V. -/
theorem coherence_update_overwrite_bug :
    coherence_point_update 3 1 1
      (fun n => if n = 0 then 1 else if n = 1 then -1 else 0)
      (fun n => if n = 0 then 1 else if n = 2 then -1 else 0)
      (fun _ => 1) 1 (fun _ => 2) (fun _ => 3) (fun _ _ => 1)
      [⟨0, 0, 1, 1, fun _ => 11, fun _ => 13⟩,
       ⟨1, 0, 1, 1, fun _ => 17, fun _ => 19⟩]
      (fun cmp _ => if cmp = 0 then 5 else 7) (fun _ _ => 0) 0 =
      some ((-16, -7), (5, 7)) := by
  norm_num [coherence_point_update, beta_levels_checked, beta_levels,
    coh_item_step, coh_tr_step, correspond_nonradiative_transition,
    correspond_radiative_transition, conjugate, dget, dset, List.range_succ]

end Meep
